import Mathlib

/-!
Verification development for the `path.ts` repository: a shallow embedding of
the filename validator (`src/filename.ts`, `fileNameValidate`) and the POSIX
path model (`src/path.ts`, `Directory` with `build`, `fullPath`, `exists`,
`mkdir`, `mkdirp`), together with theorems settling the specification claims.

JavaScript strings are modelled as `List Char`, i.e. as sequences of Unicode
scalar values (every string the program handles is well-formed Unicode).
JavaScript's `String.prototype.length` counts UTF-16 code units, which we
compute from the scalar values via `utf16Len`; `charCodeAt` iteration is
modelled by `utf16Units`; `TextEncoder().encode(...).length` by `utf8Len`.
-/

/-- Success-or-error result type, mirroring the `Result` type
(`ok(value)` / `err(error)`) used by the source. -/
inductive Result (α ε : Type) where
  | ok (value : α)
  | err (error : ε)
deriving DecidableEq

/-- Number of UTF-16 code units of a string given as scalar values:
scalars below 0x10000 take one unit, supplementary scalars take two.
This is JavaScript's `name.length`. -/
def utf16Len (name : List Char) : Nat :=
  (name.map (fun c => if c.toNat < 0x10000 then 1 else 2)).sum

/-- Number of UTF-8 bytes with which a scalar value is encoded. -/
def utf8Size (c : Char) : Nat :=
  if c.toNat < 0x80 then 1
  else if c.toNat < 0x800 then 2
  else if c.toNat < 0x10000 then 3
  else 4

/-- UTF-8 byte length of a string: JavaScript's
`new TextEncoder().encode(name).length`. -/
def utf8Len (name : List Char) : Nat :=
  (name.map utf8Size).sum

/-- The sequence of UTF-16 code units of a string: a BMP scalar is its own
unit, a supplementary scalar is encoded as a surrogate pair. This models
iterating `name.charCodeAt(i)` for `i < name.length`. -/
def utf16Units (name : List Char) : List Nat :=
  name.flatMap (fun c =>
    if c.toNat < 0x10000 then [c.toNat]
    else [0xD800 + (c.toNat - 0x10000) / 0x400, 0xDC00 + (c.toNat - 0x10000) % 0x400])

/-- Validation finding, mirroring `FileNameValidateError` of `src/filename.ts`. -/
inductive FileNameValidateError where
  | TOO_LONG (max actual : Nat)
  | EMPTY
  | RESERVED (name : List Char)
  | CONTAINS_PATH_SEPARATOR
  | CONTAINS_NULL
  | INVALID_CHAR (chars : List Char) (filesystem : String)
  | CONTROL_CHAR (code : Nat)
  | UTF8_TOO_LONG (max actual : Nat)
deriving DecidableEq

/-- The fixed set of characters rejected for FAT32/exFAT/NTFS, in the
source's order (`windowsInvalidChars`). -/
def windowsInvalidChars : List Char := ['"', '*', ':', '<', '>', '?', '\\', '|']

/-- The `errors` array accumulated by `fileNameValidate`, rule blocks in the
source's order: EMPTY, TOO_LONG, RESERVED, CONTAINS_PATH_SEPARATOR,
CONTAINS_NULL, INVALID_CHAR, CONTROL_CHAR, UTF8_TOO_LONG. Length checks use
UTF-16 code units (`name.length`), the control-character scan walks UTF-16
code units (`charCodeAt`) and stops at the first hit. -/
def validateErrors (name : List Char) : List FileNameValidateError :=
  (if utf16Len name = 0 then [FileNameValidateError.EMPTY] else [])
  ++ (if 255 < utf16Len name then [FileNameValidateError.TOO_LONG 255 (utf16Len name)] else [])
  ++ (if name = ['.'] ∨ name = ['.', '.'] then [FileNameValidateError.RESERVED name] else [])
  ++ (if '/' ∈ name then [FileNameValidateError.CONTAINS_PATH_SEPARATOR] else [])
  ++ (if Char.ofNat 0 ∈ name then [FileNameValidateError.CONTAINS_NULL] else [])
  ++ (if 0 < (windowsInvalidChars.filter (fun c => c ∈ name)).length then
        [FileNameValidateError.INVALID_CHAR
          (windowsInvalidChars.filter (fun c => c ∈ name)) "FAT32/exFAT/NTFS"]
      else [])
  ++ (match (utf16Units name).find? (fun code => decide (code ≤ 0x1F)) with
      | some code => [FileNameValidateError.CONTROL_CHAR code]
      | none => [])
  ++ (if 255 < utf8Len name then [FileNameValidateError.UTF8_TOO_LONG 255 (utf8Len name)] else [])

/-- Function `fileNameValidate` of `src/filename.ts`: returns the original name when
no rule fires, otherwise the ordered finding list. -/
def fileNameValidate (name : List Char) :
    Result (List Char) (List FileNameValidateError) :=
  if validateErrors name = [] then .ok name else .err (validateErrors name)

/-- The `Directory` class of `src/path.ts`: a name together with an optional
parent. `base name` models `new Directory(name, undefined)` (the private
constructor with `parent = undefined`, used only for the root with name `""`);
`child name parent` models `new Directory(name, parent)`. -/
inductive Directory where
  | base (name : List Char)
  | child (name : List Char) (parent : Directory)
deriving DecidableEq

/-- The `fullPath` getter: `"/"` for a parentless Directory, otherwise the
parent's full path, a `"/"` joiner unless the parent's full path already ends
with `"/"`, then the name. -/
def Directory.fullPath : Directory → List Char
  | .base _ => ['/']
  | .child name parent =>
    let parentFullPath := parent.fullPath
    let joiner : List Char := if parentFullPath.getLast? = some '/' then [] else ['/']
    parentFullPath ++ joiner ++ name

/-- One entry of `pathSegmentErrors`: the offending segment text and its
finding list. -/
abbrev PathSegmentError := List Char × List FileNameValidateError

/-- Type `BuildDirectoryError` of `src/path.ts`. -/
inductive BuildDirectoryError where
  | NOT_ABSOLUTE_PATH (path : List Char)
  | INVALID_TRAILING_SLASH (path : List Char)
  | INVALID_PATH_SEGMENT (pathSegmentErrors : List PathSegmentError)
deriving DecidableEq

/-- The `reducer` closure inside `Directory.build`: validate the segment; on
failure append the segment's findings to the accumulated failures (or start
the failure list); on success extend the Directory chain unless already
failed. -/
def buildReducer (accumulator : Result Directory (List PathSegmentError))
    (pathSegment : List Char) : Result Directory (List PathSegmentError) :=
  match fileNameValidate pathSegment with
  | .err es =>
    match accumulator with
    | .err l => .err (l ++ [(pathSegment, es)])
    | .ok _ => .err [(pathSegment, es)]
  | .ok value =>
    match accumulator with
    | .err l => .err l
    | .ok d => .ok (.child value d)

/-- Method `Directory.build` of `src/path.ts`: reject non-absolute paths, special-case
the root `"/"`, reject a trailing slash, then split on `"/"`, drop the leading
empty segment, and fold the segments with `buildReducer` starting from the
root. -/
def Directory.build (path : List Char) : Result Directory BuildDirectoryError :=
  if path.head? ≠ some '/' then .err (.NOT_ABSOLUTE_PATH path)
  else if path = ['/'] then .ok (.base [])
  else if path.getLast? = some '/' then .err (.INVALID_TRAILING_SLASH path)
  else
    match List.splitOn '/' path with
    | [] => .ok (.base [])
    | _ :: children =>
      match children.foldl buildReducer (.ok (.base [])) with
      | .ok d => .ok d
      | .err l => .err (.INVALID_PATH_SEGMENT l)

/-- Outcome of the `Deno.stat` call made by `Directory.exists`: a successful
stat carrying `isDirectory`, a `NotFound` error, or any other error carrying
its message. -/
inductive StatOutcome where
  | statOk (isDirectory : Bool)
  | notFound
  | otherError (message : List Char)
deriving DecidableEq

/-- Type `DirectoryExistsError` of `src/path.ts`. -/
inductive DirectoryExistsError where
  | FILE_EXISTS
  | IO_ERROR (message : List Char)
deriving DecidableEq

/-- Type `MkdirError` of `src/path.ts`. -/
inductive MkdirError where
  | FILE_EXISTS
  | PERMISSION_DENIED
  | PARENT_NOT_FOUND
  | IO_ERROR (message : List Char)
deriving DecidableEq

/-- Type `MkdirpError` of `src/path.ts`: note the absence of a `PARENT_NOT_FOUND`
variant. -/
inductive MkdirpError where
  | FILE_EXISTS
  | PERMISSION_DENIED
  | IO_ERROR (message : List Char)
deriving DecidableEq

/-- Outcome of the `Deno.mkdir` call made by `Directory.mkdir`, following the
`catch` branches of the source: success, `AlreadyExists` (message kept for the
race diagnostic), `PermissionDenied`, `NotFound`, or any other error with its
message. -/
inductive MkdirOutcome where
  | created
  | alreadyExists (message : List Char)
  | permissionDenied
  | notFound
  | otherError (message : List Char)
deriving DecidableEq

/-- Method `Directory.exists` as a function of the observed `Deno.stat` outcome:
directory → `ok true`; other entity → `err FILE_EXISTS`; `NotFound` →
`ok false`; other errors → `FILE_EXISTS` when the message contains
`"Not a directory"`, otherwise `IO_ERROR` with the message. -/
def existsRun (statOutcome : StatOutcome) : Result Bool DirectoryExistsError :=
  match statOutcome with
  | .statOk isDirectory =>
    if isDirectory then .ok true else .err .FILE_EXISTS
  | .notFound => .ok false
  | .otherError errorMessage =>
    if ("Not a directory".toList) <:+: errorMessage then .err .FILE_EXISTS
    else .err (.IO_ERROR errorMessage)

/-- Message of the `IO_ERROR` produced when `AlreadyExists` was reported but
the follow-up `exists()` finds nothing. -/
def raceMessage (originalMessage : List Char) : List Char :=
  "Filesystem reported AlreadyExists, but directory not found. Original error: ".toList
    ++ originalMessage

/-- Method `Directory.mkdir` as a function of the observed `Deno.mkdir` outcome and,
for the `AlreadyExists` branch, the `Deno.stat` outcome observed by the
re-run `exists()`: success → `ok true`; `AlreadyExists` → disambiguate via
`exists()` (directory → `ok false`, absent → `IO_ERROR` race diagnostic,
`exists()` errors forwarded); `PermissionDenied` → `PERMISSION_DENIED`;
`NotFound` → `PARENT_NOT_FOUND`; anything else → `IO_ERROR`. -/
def mkdirRun (mkdirOutcome : MkdirOutcome) (statOutcome : StatOutcome) :
    Result Bool MkdirError :=
  match mkdirOutcome with
  | .created => .ok true
  | .alreadyExists message =>
    match existsRun statOutcome with
    | .ok existsValue =>
      if existsValue then .ok false
      else .err (.IO_ERROR (raceMessage message))
    | .err .FILE_EXISTS => .err .FILE_EXISTS
    | .err (.IO_ERROR m) => .err (.IO_ERROR m)
  | .permissionDenied => .err .PERMISSION_DENIED
  | .notFound => .err .PARENT_NOT_FOUND
  | .otherError message => .err (.IO_ERROR message)

/-- Message of the `IO_ERROR` produced by `mkdirp` when `mkdir` reports
`PARENT_NOT_FOUND` even though the parents were just ensured. -/
def unexpectedParentMessage : List Char :=
  "Unexpected PARENT_NOT_FOUND after creating parents".toList

/-- An environment for filesystem runs: for every path, the `Deno.mkdir`
outcome observed there and the `Deno.stat` outcome a re-run `exists()` at
that path would observe. -/
abbrev FsEnv := List Char → MkdirOutcome × StatOutcome

/-- The per-node body of `mkdirp` after the parents succeeded: run `mkdir` on
self and translate its error, turning `PARENT_NOT_FOUND` into the descriptive
`IO_ERROR` and forwarding the other variants verbatim. -/
def mkdirSelfStep (env : FsEnv) (d : Directory) : Result Bool MkdirpError :=
  match mkdirRun (env d.fullPath).1 (env d.fullPath).2 with
  | .ok value => .ok value
  | .err .FILE_EXISTS => .err .FILE_EXISTS
  | .err .PERMISSION_DENIED => .err .PERMISSION_DENIED
  | .err .PARENT_NOT_FOUND => .err (.IO_ERROR unexpectedParentMessage)
  | .err (.IO_ERROR m) => .err (.IO_ERROR m)

/-- Method `Directory.mkdirp`, instrumented with the trace of paths on which `mkdir`
was invoked: ensure the parent chain first — propagating a parent failure
unchanged without touching self — then run `mkdir` on self. The first
component records, in call order, the full path of every node whose `mkdir`
was actually invoked. -/
def Directory.mkdirpT (env : FsEnv) :
    Directory → List (List Char) × Result Bool MkdirpError
  | .base name =>
    ([(Directory.base name).fullPath], mkdirSelfStep env (.base name))
  | .child name parent =>
    let parentRun := parent.mkdirpT env
    match parentRun.2 with
    | .err e => (parentRun.1, .err e)
    | .ok _ =>
      (parentRun.1 ++ [(Directory.child name parent).fullPath],
        mkdirSelfStep env (.child name parent))

/-- Method `Directory.mkdirp` of `src/path.ts` (result component of the instrumented
run). -/
def Directory.mkdirp (env : FsEnv) (d : Directory) : Result Bool MkdirpError :=
  (d.mkdirpT env).2

/-- The chain of Directory nodes from the root ancestor down to `d`
inclusive. -/
def Directory.chain : Directory → List Directory
  | .base name => [.base name]
  | .child name parent => parent.chain ++ [.child name parent]

/-- Joins pieces with a separator character: `joinSep sep [a, b, c] = a ++ sep :: b ++ sep :: c`.
Left inverse of `List.splitOn sep`. -/
def joinSep (sep : Char) : List (List Char) → List Char
  | [] => []
  | [s] => s
  | s :: rest => s ++ sep :: joinSep sep rest

/-- The Directory chain obtained by folding validated segments onto a start
node, as the success path of `Directory.build` does. -/
def chainFold (d : Directory) (segs : List (List Char)) : Directory :=
  segs.foldl (fun a s => Directory.child s a) d

/-- The per-segment failures of a segment list, in encounter order: one entry
(segment text, finding list) for every segment that fails validation. -/
def collectFailures (segs : List (List Char)) : List PathSegmentError :=
  segs.filterMap (fun s =>
    match fileNameValidate s with
    | .err es => some (s, es)
    | .ok _ => none)

/-- Recognizes `INVALID_CHAR` findings. -/
def isInvalidCharFinding : FileNameValidateError → Bool
  | .INVALID_CHAR _ _ => true
  | _ => false

lemma mem_ite_nil {α : Type} (c : Prop) [Decidable c] (e x : α) :
    x ∈ (if c then [e] else []) ↔ c ∧ x = e := by
  split_ifs with h <;> simp [h]

lemma mem_validateErrors (s : List Char) (e : FileNameValidateError) :
    e ∈ validateErrors s ↔
      (utf16Len s = 0 ∧ e = .EMPTY)
      ∨ (255 < utf16Len s ∧ e = .TOO_LONG 255 (utf16Len s))
      ∨ ((s = ['.'] ∨ s = ['.', '.']) ∧ e = .RESERVED s)
      ∨ ('/' ∈ s ∧ e = .CONTAINS_PATH_SEPARATOR)
      ∨ (Char.ofNat 0 ∈ s ∧ e = .CONTAINS_NULL)
      ∨ (0 < (windowsInvalidChars.filter (fun c => c ∈ s)).length
          ∧ e = .INVALID_CHAR (windowsInvalidChars.filter (fun c => c ∈ s)) "FAT32/exFAT/NTFS")
      ∨ (∃ code, (utf16Units s).find? (fun u => decide (u ≤ 0x1F)) = some code
          ∧ e = .CONTROL_CHAR code)
      ∨ (255 < utf8Len s ∧ e = .UTF8_TOO_LONG 255 (utf8Len s)) := by
  unfold validateErrors
  cases h : (utf16Units s).find? (fun u => decide (u ≤ 0x1F)) <;>
    simp [List.mem_append, mem_ite_nil, h]

lemma length_le_utf16Len (s : List Char) : s.length ≤ utf16Len s := by
  unfold utf16Len
  have h := List.length_le_sum_of_one_le
    (s.map (fun c => if c.toNat < 0x10000 then 1 else 2)) ?_
  · simpa using h
  · intro i hi
    obtain ⟨c, _, rfl⟩ := List.mem_map.1 hi
    split_ifs <;> omega

lemma utf16Len_le_utf8Len (s : List Char) : utf16Len s ≤ utf8Len s := by
  unfold utf16Len utf8Len
  refine List.sum_le_sum ?_
  intro c _
  unfold utf8Size
  split_ifs <;> omega

lemma utf16Units_find_none (s : List Char)
    (h : ∀ c ∈ s, ¬ c.toNat ≤ 0x1F) :
    (utf16Units s).find? (fun u => decide (u ≤ 0x1F)) = none := by
  rw [List.find?_eq_none]
  intro u hu
  simp only [decide_eq_true_eq]
  unfold utf16Units at hu
  obtain ⟨c, hc, hmem⟩ := List.mem_flatMap.1 hu
  by_cases hbmp : c.toNat < 0x10000
  · simp [hbmp] at hmem
    subst hmem
    exact h c hc
  · rw [if_neg hbmp] at hmem
    simp only [List.mem_cons, List.not_mem_nil, or_false] at hmem
    intro hle
    rcases hmem with h' | h' <;> omega

lemma validateErrors_eq_nil (s : List Char)
    (h1 : utf16Len s ≠ 0) (h2 : ¬ 255 < utf16Len s)
    (h3 : ¬ (s = ['.'] ∨ s = ['.', '.'])) (h4 : '/' ∉ s)
    (h5 : Char.ofNat 0 ∉ s)
    (h6 : windowsInvalidChars.filter (fun c => c ∈ s) = [])
    (h7 : (utf16Units s).find? (fun u => decide (u ≤ 0x1F)) = none)
    (h8 : ¬ 255 < utf8Len s) :
    validateErrors s = [] := by
  unfold validateErrors
  rw [if_neg h1, if_neg h2, if_neg h3, if_neg h4, if_neg h5, h6, h7]
  simp [h8]

lemma fileNameValidate_ok_iff (s v : List Char) :
    fileNameValidate s = .ok v ↔ validateErrors s = [] ∧ v = s := by
  unfold fileNameValidate
  split_ifs with h <;> simp [h, eq_comm]

lemma validateErrors_nil_props (s : List Char) (h : validateErrors s = []) :
    s ≠ [] ∧ '/' ∉ s := by
  constructor
  · rintro rfl
    have : FileNameValidateError.EMPTY ∈ validateErrors [] := by
      rw [mem_validateErrors]
      left
      exact ⟨rfl, rfl⟩
    rw [h] at this
    exact absurd this (List.not_mem_nil _)
  · intro hmem
    have : FileNameValidateError.CONTAINS_PATH_SEPARATOR ∈ validateErrors s := by
      rw [mem_validateErrors]
      refine Or.inr (Or.inr (Or.inr (Or.inl ⟨hmem, rfl⟩)))
    rw [h] at this
    exact absurd this (List.not_mem_nil _)

lemma joinSep_cons_of_ne_nil (sep : Char) (s : List Char) (t : List (List Char))
    (h : t ≠ []) : joinSep sep (s :: t) = s ++ sep :: joinSep sep t := by
  cases t with
  | nil => exact absurd rfl h
  | cons h2 t2 => rfl

lemma joinSep_splitOnP (l : List Char) :
    joinSep '/' (l.splitOnP (· == '/')) = l := by
  induction l with
  | nil => rfl
  | cons c rest ih =>
    rw [List.splitOnP_cons]
    by_cases hc : c = '/'
    · rw [if_pos (by simp [hc])]
      cases hsplit : rest.splitOnP (· == '/') with
      | nil => exact absurd hsplit (List.splitOnP_ne_nil _ rest)
      | cons h2 t2 =>
        rw [joinSep_cons_of_ne_nil _ _ _ (by simp)]
        rw [hsplit] at ih
        simp [hc, ih]
    · rw [if_neg (by simp [hc])]
      cases hsplit : rest.splitOnP (· == '/') with
      | nil => exact absurd hsplit (List.splitOnP_ne_nil _ rest)
      | cons h2 t2 =>
        rw [hsplit] at ih
        cases t2 with
        | nil =>
          simp only [List.modifyHead]
          simp only [joinSep] at ih ⊢
          rw [ih]
        | cons h3 t3 =>
          simp only [List.modifyHead]
          rw [joinSep_cons_of_ne_nil '/' (c :: h2) (h3 :: t3) (by simp)]
          rw [joinSep_cons_of_ne_nil '/' h2 (h3 :: t3) (by simp)] at ih
          simp [← ih]

lemma joinSep_splitOn (l : List Char) :
    joinSep '/' (List.splitOn '/' l) = l :=
  joinSep_splitOnP l

lemma splitOn_slash_cons (rest : List Char) :
    List.splitOn '/' ('/' :: rest) = [] :: List.splitOn '/' rest := by
  simp [List.splitOn, List.splitOnP_cons]

lemma getLast?_append_right (l s : List Char) (h : s ≠ []) :
    (l ++ s).getLast? = s.getLast? := by
  rw [List.getLast?_append, List.getLast?_eq_getLast s h]
  rfl

lemma getLast?_ne_slash (s : List Char) (hne : s ≠ []) (hsl : '/' ∉ s) :
    s.getLast? ≠ some '/' := by
  rw [List.getLast?_eq_getLast s hne]
  intro hcontra
  have : s.getLast hne ∈ s := List.getLast_mem hne
  simp only [Option.some_inj] at hcontra
  rw [hcontra] at this
  exact hsl this

lemma fullPath_chainFold (segs : List (List Char)) :
    ∀ d : Directory, segs ≠ [] → (∀ s ∈ segs, s ≠ [] ∧ '/' ∉ s) →
      (chainFold d segs).fullPath =
        d.fullPath ++ (if d.fullPath.getLast? = some '/' then [] else ['/'])
          ++ joinSep '/' segs := by
  induction segs with
  | nil => intro d h _; exact absurd rfl h
  | cons s t ih =>
    intro d _ hall
    obtain ⟨hsne, hssl⟩ := hall s (List.mem_cons_self s t)
    cases t with
    | nil =>
      simp only [chainFold, List.foldl_cons, List.foldl_nil, joinSep]
      simp [Directory.fullPath]
    | cons t0 ts =>
      have hstep : chainFold d (s :: t0 :: ts) = chainFold (.child s d) (t0 :: ts) := rfl
      rw [hstep, ih (.child s d) (by simp) (fun x hx => hall x (List.mem_cons_of_mem s hx))]
      have hfp : (Directory.child s d).fullPath =
          d.fullPath ++ (if d.fullPath.getLast? = some '/' then [] else ['/']) ++ s := rfl
      have hlast : (Directory.child s d).fullPath.getLast? = s.getLast? := by
        rw [hfp, List.append_assoc, getLast?_append_right _ _ (by
          intro hcontra
          exact hsne (List.append_eq_nil.1 hcontra).2),
          getLast?_append_right _ _ hsne]
      rw [joinSep_cons_of_ne_nil '/' s (t0 :: ts) (by simp)]
      rw [hlast, if_neg (getLast?_ne_slash s hsne hssl), hfp]
      simp

lemma collectFailures_cons_err (s : List Char) (t : List (List Char))
    (es : List FileNameValidateError) (h : fileNameValidate s = .err es) :
    collectFailures (s :: t) = (s, es) :: collectFailures t := by
  simp [collectFailures, List.filterMap_cons, h]

lemma collectFailures_cons_ok (s : List Char) (t : List (List Char))
    (v : List Char) (h : fileNameValidate s = .ok v) :
    collectFailures (s :: t) = collectFailures t := by
  simp [collectFailures, List.filterMap_cons, h]

lemma foldl_buildReducer_err (segs : List (List Char)) :
    ∀ L : List PathSegmentError,
      segs.foldl buildReducer (.err L) = .err (L ++ collectFailures segs) := by
  induction segs with
  | nil => intro L; simp [collectFailures]
  | cons s t ih =>
    intro L
    cases h : fileNameValidate s with
    | err es =>
      rw [List.foldl_cons]
      have hred : buildReducer (.err L) s = .err (L ++ [(s, es)]) := by
        simp [buildReducer, h]
      rw [hred, ih, collectFailures_cons_err s t es h]
      simp
    | ok v =>
      rw [List.foldl_cons]
      have hred : buildReducer (.err L) s = .err L := by
        simp [buildReducer, h]
      rw [hred, ih, collectFailures_cons_ok s t v h]

lemma foldl_buildReducer_allOk (segs : List (List Char)) :
    ∀ d : Directory, (∀ s ∈ segs, validateErrors s = []) →
      segs.foldl buildReducer (.ok d) = .ok (chainFold d segs) := by
  induction segs with
  | nil => intro d _; rfl
  | cons s t ih =>
    intro d hall
    have hv : fileNameValidate s = .ok s := by
      rw [fileNameValidate_ok_iff]
      exact ⟨hall s (List.mem_cons_self s t), rfl⟩
    rw [List.foldl_cons]
    have hred : buildReducer (.ok d) s = .ok (.child s d) := by
      simp [buildReducer, hv]
    rw [hred, ih (.child s d) (fun x hx => hall x (List.mem_cons_of_mem s hx))]
    rfl

lemma foldl_buildReducer_fail (segs : List (List Char)) :
    ∀ d : Directory, collectFailures segs ≠ [] →
      segs.foldl buildReducer (.ok d) = .err (collectFailures segs) := by
  induction segs with
  | nil => intro d h; exact absurd rfl h
  | cons s t ih =>
    intro d hne
    cases h : fileNameValidate s with
    | err es =>
      rw [List.foldl_cons]
      have hred : buildReducer (.ok d) s = .err [(s, es)] := by
        simp [buildReducer, h]
      rw [hred, foldl_buildReducer_err, collectFailures_cons_err s t es h]
      simp
    | ok v =>
      rw [List.foldl_cons]
      have hred : buildReducer (.ok d) s = .ok (.child v d) := by
        simp [buildReducer, h]
      rw [collectFailures_cons_ok s t v h] at hne ⊢
      rw [hred, ih (.child v d) hne]

lemma build_eq_fold (rest : List Char) (hroot : ('/' :: rest) ≠ ['/'])
    (htrail : ('/' :: rest).getLast? ≠ some '/') :
    Directory.build ('/' :: rest) =
      match (List.splitOn '/' rest).foldl buildReducer (.ok (.base [])) with
      | .ok d => .ok d
      | .err l => .err (.INVALID_PATH_SEGMENT l) := by
  unfold Directory.build
  rw [if_neg (by simp), if_neg hroot, if_neg htrail, splitOn_slash_cons]

lemma head_slash_shape (p : List Char) (hhead : p.head? = some '/') :
    ∃ rest, p = '/' :: rest := by
  cases p with
  | nil => simp at hhead
  | cons a t =>
    simp only [List.head?_cons, Option.some_inj] at hhead
    exact ⟨t, by rw [hhead]⟩

/-- C10: `Directory.build` applied to the empty string returns
`err(NOT_ABSOLUTE_PATH)`: the empty path is rejected by the leading-slash
check, not reported as an empty-segment `INVALID_PATH_SEGMENT` or as a
root. -/
theorem c10_build_empty_not_absolute :
    Directory.build [] = .err (.NOT_ABSOLUTE_PATH []) := by decide

/-- C7: findings are appended in the fixed rule order, never in input
occurrence order — `validate("file/name*test\0")` yields exactly
`CONTAINS_PATH_SEPARATOR`, `CONTAINS_NULL`, `INVALID_CHAR{chars:["*"]}`,
`CONTROL_CHAR{code:0}` in that order — and the `CONTROL_CHAR` rule reports
only the first control character found scanning left to right. -/
theorem c7_rule_order_and_first_control :
    fileNameValidate ("file/name*test".toList ++ [Char.ofNat 0]) =
      .err [.CONTAINS_PATH_SEPARATOR, .CONTAINS_NULL,
            .INVALID_CHAR ['*'] "FAT32/exFAT/NTFS", .CONTROL_CHAR 0] ∧
    ∀ (s : List Char) (code : Nat),
      FileNameValidateError.CONTROL_CHAR code ∈ validateErrors s →
      (utf16Units s).find? (fun u => decide (u ≤ 0x1F)) = some code := by
  constructor
  · decide
  · intro s code h
    rw [mem_validateErrors] at h
    rcases h with ⟨_, h⟩ | ⟨_, h⟩ | ⟨_, h⟩ | ⟨_, h⟩ | ⟨_, h⟩ | ⟨_, h⟩
      | ⟨c, hc, h⟩ | ⟨_, h⟩
    · simp at h
    · simp at h
    · simp at h
    · simp at h
    · simp at h
    · simp at h
    · obtain rfl : code = c := by injection h
      exact hc
    · simp at h

/-- Witness for C7: on the concrete input, the control-character scan indeed
stops at the first control character (the trailing NUL, code 0). -/
theorem c7_witness :
    (utf16Units ("file/name*test".toList ++ [Char.ofNat 0])).find?
      (fun u => decide (u ≤ 0x1F)) = some 0 :=
  c7_rule_order_and_first_control.2 _ 0 (by decide)

set_option maxRecDepth 100000 in
/-- Counterexample for C1: a name of exactly 255 four-byte-encoded code points
(255 scalar values, 510 UTF-16 code units) DOES trigger the TOO_LONG rule,
with payload `actual` equal to 510 (the UTF-16 code-unit count), not 255 (the
scalar-value count): `name.length` in the source counts UTF-16 code units. -/
theorem c1_counterexample :
    fileNameValidate (List.replicate 255 '😀') =
      .err [.TOO_LONG 255 510, .UTF8_TOO_LONG 255 1020] := by decide

/-- C1 (amended): the TOO_LONG finding fires exactly when the name's length
measured in UTF-16 code units exceeds 255, with payload `actual` equal to that
code-unit count. -/
theorem c1_too_long_utf16 :
    ∀ s : List Char,
      (255 < utf16Len s →
        FileNameValidateError.TOO_LONG 255 (utf16Len s) ∈ validateErrors s) ∧
      (∀ m a, FileNameValidateError.TOO_LONG m a ∈ validateErrors s →
        m = 255 ∧ a = utf16Len s ∧ 255 < utf16Len s) := by
  intro s
  constructor
  · intro h
    rw [mem_validateErrors]
    exact Or.inr (Or.inl ⟨h, rfl⟩)
  · intro m a h
    rw [mem_validateErrors] at h
    rcases h with ⟨_, h⟩ | ⟨hlt, h⟩ | ⟨_, h⟩ | ⟨_, h⟩ | ⟨_, h⟩ | ⟨_, h⟩
      | ⟨c, _, h⟩ | ⟨_, h⟩
    · simp at h
    · injection h with h1 h2
      exact ⟨h1, h2, hlt⟩
    · simp at h
    · simp at h
    · simp at h
    · simp at h
    · simp at h
    · simp at h

set_option maxRecDepth 100000 in
/-- Witness for C1 (amended): the 255-emoji name (510 UTF-16 code units)
receives a TOO_LONG finding. -/
theorem c1_witness :
    FileNameValidateError.TOO_LONG 255 (utf16Len (List.replicate 255 '😀')) ∈
      validateErrors (List.replicate 255 '😀') :=
  (c1_too_long_utf16 (List.replicate 255 '😀')).1 (by decide)

/-- C8: whenever a name contains at least one character of the fixed
FAT32/exFAT/NTFS set, `validate` produces exactly one INVALID_CHAR finding,
whose `chars` field is the filter of the canonical set by presence in the
name (canonical-set order, not occurrence order), tagged
`"FAT32/exFAT/NTFS"`. -/
theorem c8_invalid_char_canonical :
    ∀ s : List Char,
      (∃ c, c ∈ windowsInvalidChars ∧ c ∈ s) →
      (validateErrors s).filter isInvalidCharFinding =
        [.INVALID_CHAR (windowsInvalidChars.filter (fun c => c ∈ s))
          "FAT32/exFAT/NTFS"] := by
  intro s hex
  have hne : windowsInvalidChars.filter (fun c => c ∈ s) ≠ [] := by
    obtain ⟨c, hcw, hcs⟩ := hex
    intro hnil
    rw [List.filter_eq_nil_iff] at hnil
    exact absurd (by simpa using hcs) (by simpa using hnil c hcw)
  have hpos : 0 < (windowsInvalidChars.filter (fun c => c ∈ s)).length :=
    List.length_pos.2 hne
  unfold validateErrors
  rw [if_pos hpos]
  cases hf : (utf16Units s).find? (fun u => decide (u ≤ 0x1F)) <;>
    split_ifs <;> simp [isInvalidCharFinding]

/-- Witness for C8: the name `file<>:"|*?.txt` yields the single
INVALID_CHAR finding listing the present set members in canonical order. -/
theorem c8_witness :
    (validateErrors "file<>:\"|*?.txt".toList).filter isInvalidCharFinding =
      [.INVALID_CHAR ['"', '*', ':', '<', '>', '?', '|'] "FAT32/exFAT/NTFS"] :=
  (c8_invalid_char_canonical "file<>:\"|*?.txt".toList
    ⟨'*', by decide, by decide⟩).trans (by decide)

/-- C6: every string with no forbidden character (no `/`, no NUL, no control
character, none of the FAT32/exFAT/NTFS set), length between 1 and 255 scalar
values, UTF-8 byte length at most 255, and different from `"."` and `".."`,
is accepted by `validate`, which returns the original string unchanged. -/
theorem c6_valid_names_accepted :
    ∀ s : List Char,
      (∀ c ∈ s, c ≠ '/' ∧ c ≠ Char.ofNat 0 ∧ ¬ c.toNat ≤ 0x1F ∧
        c ∉ windowsInvalidChars) →
      1 ≤ s.length → s.length ≤ 255 → utf8Len s ≤ 255 →
      s ≠ ['.'] → s ≠ ['.', '.'] →
      fileNameValidate s = .ok s := by
  intro s hforb hlen1 _ hutf8 hdot hdotdot
  have hnil : validateErrors s = [] := by
    apply validateErrors_eq_nil
    · have := length_le_utf16Len s
      omega
    · have := utf16Len_le_utf8Len s
      omega
    · intro hor
      rcases hor with h | h
      · exact hdot h
      · exact hdotdot h
    · intro hmem
      exact (hforb '/' hmem).1 rfl
    · intro hmem
      exact (hforb _ hmem).2.1 rfl
    · rw [List.filter_eq_nil_iff]
      intro c hcw
      simp only [decide_eq_true_eq]
      intro hcs
      exact (hforb c hcs).2.2.2 hcw
    · exact utf16Units_find_none s (fun c hc => (hforb c hc).2.2.1)
    · omega
  simp [fileNameValidate, hnil]

/-- Witness for C6: `"document.txt"` is accepted unchanged. -/
theorem c6_witness :
    fileNameValidate "document.txt".toList = .ok "document.txt".toList :=
  c6_valid_names_accepted "document.txt".toList (by decide) (by decide)
    (by decide) (by decide) (by decide) (by decide)

/-- C2: whenever at least one `/`-delimited segment of an absolute,
non-trailing-slash path fails validation, `Directory.build` returns a single
`INVALID_PATH_SEGMENT` error whose failure list contains one entry (segment
text plus finding list) for every failing segment, in left-to-right encounter
order (`collectFailures` is the order-preserving filter of the failing
segments), and no Directory value is returned. -/
theorem c2_invalid_segments_accumulated :
    ∀ p : List Char, p.head? = some '/' → p ≠ ['/'] → p.getLast? ≠ some '/' →
      collectFailures ((List.splitOn '/' p).tail) ≠ [] →
      Directory.build p =
        .err (.INVALID_PATH_SEGMENT (collectFailures ((List.splitOn '/' p).tail))) := by
  intro p hhead hroot htrail hfail
  obtain ⟨rest, rfl⟩ := head_slash_shape p hhead
  have htail : (List.splitOn '/' ('/' :: rest)).tail = List.splitOn '/' rest := by
    rw [splitOn_slash_cons]
    rfl
  rw [htail] at hfail ⊢
  rw [build_eq_fold rest hroot htrail,
      foldl_buildReducer_fail (List.splitOn '/' rest) (.base []) hfail]

/-- Witness for C2: `Directory.build("/home//user*name")` fails with exactly
two per-segment failures — the empty segment from the doubled slash and the
segment containing `*` — in encounter order. -/
theorem c2_witness :
    Directory.build "/home//user*name".toList =
      .err (.INVALID_PATH_SEGMENT
        [([], [.EMPTY]),
         ("user*name".toList, [.INVALID_CHAR ['*'] "FAT32/exFAT/NTFS"])]) :=
  (c2_invalid_segments_accumulated "/home//user*name".toList
    (by decide) (by decide) (by decide) (by decide)).trans (by decide)

/-- C5: round-trip — the root built from `"/"` has `fullPath` exactly `"/"`,
and for every absolute path whose segments all pass validation (hence are
nonempty, excluding doubled slashes) and which has no trailing slash,
`Directory.build` succeeds and the resulting Directory's `fullPath` is the
original path. -/
theorem c5_roundtrip :
    (Directory.build ['/'] = .ok (.base []) ∧ (Directory.base []).fullPath = ['/']) ∧
    ∀ p : List Char, p.head? = some '/' → p ≠ ['/'] → p.getLast? ≠ some '/' →
      (∀ s ∈ (List.splitOn '/' p).tail, fileNameValidate s = .ok s) →
      ∃ d, Directory.build p = .ok d ∧ d.fullPath = p := by
  refine ⟨⟨by decide, rfl⟩, ?_⟩
  intro p hhead hroot htrail hall
  obtain ⟨rest, rfl⟩ := head_slash_shape p hhead
  have htail : (List.splitOn '/' ('/' :: rest)).tail = List.splitOn '/' rest := by
    rw [splitOn_slash_cons]
    rfl
  rw [htail] at hall
  have hsegs : ∀ s ∈ List.splitOn '/' rest, validateErrors s = [] := by
    intro s hs
    exact ((fileNameValidate_ok_iff s s).1 (hall s hs)).1
  refine ⟨chainFold (.base []) (List.splitOn '/' rest), ?_, ?_⟩
  · rw [build_eq_fold rest hroot htrail,
        foldl_buildReducer_allOk (List.splitOn '/' rest) (.base []) hsegs]
  · have hne : List.splitOn '/' rest ≠ [] := by
      simp only [List.splitOn]
      exact List.splitOnP_ne_nil _ rest
    have hprops : ∀ s ∈ List.splitOn '/' rest, s ≠ [] ∧ '/' ∉ s := by
      intro s hs
      exact validateErrors_nil_props s (hsegs s hs)
    rw [fullPath_chainFold (List.splitOn '/' rest) (.base []) hne hprops]
    simp [Directory.fullPath, joinSep_splitOn]

/-- Witness for C5: building `"/home/user/documents"` succeeds and its
`fullPath` round-trips. -/
theorem c5_witness :
    ∃ d, Directory.build "/home/user/documents".toList = .ok d ∧
      d.fullPath = "/home/user/documents".toList :=
  c5_roundtrip.2 "/home/user/documents".toList
    (by decide) (by decide) (by decide) (by decide)

/-- C3: when the OS create-directory call fails with already-exists, `mkdir`'s
result is decided by the re-run `exists()`: directory present → `ok(false)`;
file present → `err(FILE_EXISTS)`; absent → `err(IO_ERROR)` describing the
inconsistency; an `IO_ERROR` from `exists()` itself is forwarded. -/
theorem c3_mkdir_already_exists_disambiguation :
    ∀ (message : List Char) (so : StatOutcome),
      (existsRun so = .ok true →
        mkdirRun (.alreadyExists message) so = .ok false) ∧
      (existsRun so = .err .FILE_EXISTS →
        mkdirRun (.alreadyExists message) so = .err .FILE_EXISTS) ∧
      (existsRun so = .ok false →
        mkdirRun (.alreadyExists message) so = .err (.IO_ERROR (raceMessage message))) ∧
      (∀ m, existsRun so = .err (.IO_ERROR m) →
        mkdirRun (.alreadyExists message) so = .err (.IO_ERROR m)) := by
  intro message so
  refine ⟨?_, ?_, ?_, ?_⟩
  · intro h
    simp [mkdirRun, h]
  · intro h
    simp [mkdirRun, h]
  · intro h
    simp [mkdirRun, h]
  · intro m h
    simp [mkdirRun, h]

/-- Witness for C3: the four disambiguation outcomes at concrete stat
outcomes. -/
theorem c3_witness :
    mkdirRun (.alreadyExists []) (.statOk true) = .ok false ∧
    mkdirRun (.alreadyExists []) (.statOk false) = .err .FILE_EXISTS ∧
    mkdirRun (.alreadyExists []) .notFound = .err (.IO_ERROR (raceMessage [])) ∧
    mkdirRun (.alreadyExists []) (.otherError ['x']) = .err (.IO_ERROR ['x']) :=
  ⟨(c3_mkdir_already_exists_disambiguation [] (.statOk true)).1 (by decide),
   (c3_mkdir_already_exists_disambiguation [] (.statOk false)).2.1 (by decide),
   (c3_mkdir_already_exists_disambiguation [] .notFound).2.2.1 (by decide),
   (c3_mkdir_already_exists_disambiguation [] (.otherError ['x'])).2.2.2 ['x']
     (by decide)⟩

/-- C4: for every Directory with a parent, a failure of the parent's `mkdirp`
is returned unchanged and `mkdir` on self is not attempted (the call trace is
exactly the parent's); and when the parents succeeded and `mkdir` on self
fails with `PARENT_NOT_FOUND`, `mkdirp` reports `err(IO_ERROR)` with the
descriptive message. `MkdirpError` itself has no `PARENT_NOT_FOUND`
constructor. -/
theorem c4_mkdirp_parent_propagation :
    ∀ (env : FsEnv) (name : List Char) (parent : Directory),
      (∀ e, Directory.mkdirp env parent = .err e →
        Directory.mkdirp env (.child name parent) = .err e ∧
        ((Directory.child name parent).mkdirpT env).1 = (parent.mkdirpT env).1) ∧
      (∀ b, Directory.mkdirp env parent = .ok b →
        mkdirRun (env (Directory.child name parent).fullPath).1
            (env (Directory.child name parent).fullPath).2 = .err .PARENT_NOT_FOUND →
        Directory.mkdirp env (.child name parent) = .err (.IO_ERROR unexpectedParentMessage)) := by
  intro env name parent
  constructor
  · intro e he
    unfold Directory.mkdirp at he ⊢
    constructor
    · simp [Directory.mkdirpT, he]
    · simp [Directory.mkdirpT, he]
  · intro b hb hself
    unfold Directory.mkdirp at hb ⊢
    simp [Directory.mkdirpT, hb, mkdirSelfStep, hself]

/-- Witness for C4: with an environment denying the root, the child's `mkdirp`
returns the parent's `PERMISSION_DENIED` unchanged with an untouched trace;
with an environment that creates the root but reports `NotFound` for the
child, the child's `mkdirp` returns the descriptive `IO_ERROR`. -/
theorem c4_witness :
    (Directory.mkdirp (fun _ => (MkdirOutcome.permissionDenied, StatOutcome.statOk true))
        (.child "a".toList (.base [])) = .err .PERMISSION_DENIED ∧
      ((Directory.child "a".toList (.base [])).mkdirpT
          (fun _ => (MkdirOutcome.permissionDenied, StatOutcome.statOk true))).1 =
        ((Directory.base []).mkdirpT
          (fun _ => (MkdirOutcome.permissionDenied, StatOutcome.statOk true))).1) ∧
    Directory.mkdirp
        (fun p => if p = ['/'] then (MkdirOutcome.created, StatOutcome.statOk true)
                  else (MkdirOutcome.notFound, StatOutcome.statOk true))
        (.child "a".toList (.base [])) = .err (.IO_ERROR unexpectedParentMessage) :=
  ⟨(c4_mkdirp_parent_propagation
      (fun _ => (MkdirOutcome.permissionDenied, StatOutcome.statOk true))
      "a".toList (.base [])).1 .PERMISSION_DENIED (by decide),
   (c4_mkdirp_parent_propagation
      (fun p => if p = ['/'] then (MkdirOutcome.created, StatOutcome.statOk true)
                else (MkdirOutcome.notFound, StatOutcome.statOk true))
      "a".toList (.base [])).2 true (by decide) (by decide)⟩

/-- C9: `mkdirp` terminates and performs exactly one `mkdir` call per node on
the chain from root to self: the trace of `mkdir` invocations is always an
initial portion of the chain's full paths in root-to-self order, and equals
the whole chain when `mkdirp` succeeds. -/
theorem c9_mkdirp_one_call_per_node :
    ∀ (env : FsEnv) (d : Directory),
      (∃ rest, (d.mkdirpT env).1 ++ rest = d.chain.map Directory.fullPath) ∧
      (∀ b, (d.mkdirpT env).2 = .ok b →
        (d.mkdirpT env).1 = d.chain.map Directory.fullPath) := by
  intro env d
  induction d with
  | base name =>
    constructor
    · exact ⟨[], by simp [Directory.mkdirpT, Directory.chain]⟩
    · intro b _
      simp [Directory.mkdirpT, Directory.chain]
  | child name parent ih =>
    cases hp : (parent.mkdirpT env).2 with
    | err e =>
      constructor
      · obtain ⟨rest, hrest⟩ := ih.1
        refine ⟨rest ++ [(Directory.child name parent).fullPath], ?_⟩
        simp only [Directory.mkdirpT, hp, Directory.chain, List.map_append,
          List.map_cons, List.map_nil]
        rw [← List.append_assoc, hrest]
      · intro b hb
        simp [Directory.mkdirpT, hp] at hb
    | ok pb =>
      have htr : (parent.mkdirpT env).1 = parent.chain.map Directory.fullPath :=
        ih.2 pb hp
      constructor
      · exact ⟨[], by simp [Directory.mkdirpT, hp, Directory.chain, htr]⟩
      · intro b _
        simp [Directory.mkdirpT, hp, Directory.chain, htr]

/-- Witness for C9: for a two-node chain with a successful environment, the
trace is exactly the two full paths root-to-self. -/
theorem c9_witness :
    ((Directory.child "a".toList (.base [])).mkdirpT
        (fun _ => (MkdirOutcome.created, StatOutcome.statOk true))).1 =
      (Directory.child "a".toList (.base [])).chain.map Directory.fullPath :=
  (c9_mkdirp_one_call_per_node
    (fun _ => (MkdirOutcome.created, StatOutcome.statOk true))
    (.child "a".toList (.base []))).2 true (by decide)
